import Mathlib

/-!
Verification of the rename2 overlay-filesystem specification of the
libfuse-fs repository.

The repository ships two relevant source artifacts:

* `src/overlayfs/mock_layer.rs` — the test-only behavior-injection hook
  (`MockLayer`, `RenameBehavior`, `make_rename2_closure`,
  `Filesystem::rename2`).  These are embedded directly below in the
  `Ovfs` namespace (`mockLayerRename2`, `makeRename2Closure`, ...).

* `tests/test_rename2_comprehensive.rs` — the test suite, whose helper
  functions `TestEnv::is_whiteout` and `TestEnv::create_whiteout` are
  embedded as `is_whiteout` and `create_whiteout`.

The Rename2 Planner itself (spec section 4.E), the Inode Registry (4.C),
the Copy-Up Engine (4.D) and the Layer Accessor (4.A) are not part of the
provided sources, so they are modelled from the specification text: the
definitions `resolve`, `copyUp`, `rawRename`, `postWhiteout`,
`rename2Cases` and `rename2` below follow sections 4.A-4.E of the spec
word by word (flag preconditions, resolution order, the same-path rule,
the case table and the post-rename whiteout policy).
-/

namespace Ovfs

/-! ## Constants (spec section 6: errno values, renameat2 bit layout,
    and the mode bits used by the whiteout artifact format) -/

def ENOENT : Nat := 2

def EEXIST : Nat := 17

def EINVAL : Nat := 22

def S_IFMT : Nat := 0o170000

def S_IFCHR : Nat := 0o020000

def S_IFREG : Nat := 0o100000

def RENAME_NOREPLACE : Nat := 1

def RENAME_EXCHANGE : Nat := 2

def RENAME_WHITEOUT : Nat := 4

def hasFlag (flags f : Nat) : Bool := Nat.land flags f != 0

/-! ## Metadata and the whiteout predicate

`Metadata` is the slice of `std::fs::Metadata` consulted by
`TestEnv::is_whiteout` (tests/test_rename2_comprehensive.rs lines 74-79):
the mode word and the rdev number.  `is_whiteout` is that function:
`(mode & S_IFMT) == S_IFCHR && rdev == 0`. -/

structure Metadata where
  mode : Nat
  rdev : Nat
deriving Repr, DecidableEq

def is_whiteout (m : Metadata) : Bool :=
  (Nat.land m.mode S_IFMT == S_IFCHR) && (m.rdev == 0)

/-! ## The overlay data model (spec section 3)

An upper-layer inode records its mode word, rdev and (for regular files)
its content.  The upper layer is an association list from positions
(parent inode id, name) to inode numbers — several positions may share
one inode number (hard links) — together with an inode table and a
fresh-inode counter.  Lower layers are read-only, so they are modelled
as a single merged position-to-content map. -/

structure Inode where
  mode : Nat
  rdev : Nat
  content : String
deriving Repr, DecidableEq

abbrev Pos := Nat × String

/-- Association-list lookup keyed by decidable equality; first binding wins. -/
def alookup {α β : Type} [DecidableEq α] : List (α × β) → α → Option β
  | [], _ => none
  | e :: rest, k => if e.1 = k then some e.2 else alookup rest k

/-- Remove every binding with the given key. -/
def removeKey {α β : Type} [DecidableEq α] : List (α × β) → α → List (α × β)
  | [], _ => []
  | e :: rest, k => if e.1 = k then removeKey rest k else e :: removeKey rest k

structure Upper where
  entries : List (Pos × Nat)
  inodes : List (Nat × Inode)
  nextIno : Nat
deriving Repr, DecidableEq

abbrev Lower := List (Pos × String)

structure OvState where
  upper : Upper
  lower : Lower
deriving Repr, DecidableEq

/-- The whiteout artifact (spec 4.B / 6): character-special node with
mode `S_IFCHR | 0o644` and device number 0. -/
def whiteoutInode : Inode := ⟨Nat.lor S_IFCHR 0o644, 0, ""⟩

def Upper.get (u : Upper) (pos : Pos) : Option Inode :=
  match alookup u.entries pos with
  | some i => alookup u.inodes i
  | none => none

def Upper.metadataAt (u : Upper) (pos : Pos) : Option Metadata :=
  (u.get pos).map (fun ind => ⟨ind.mode, ind.rdev⟩)

/-- Does the upper layer hold a whiteout marker at this position? -/
def upperWhiteout (u : Upper) (pos : Pos) : Bool :=
  match u.metadataAt pos with
  | some m => is_whiteout m
  | none => false

/-- Upper-layer link count of an inode: the number of upper directory
entries resolving to it (spec section 3, `nlink_upper`). -/
def countIno : List (Pos × Nat) → Nat → Nat
  | [], _ => 0
  | e :: rest, i => (if e.2 = i then 1 else 0) + countIno rest i

def nlink (u : Upper) (i : Nat) : Nat := countIno u.entries i

/-- Every entry references an inode number below the fresh counter. -/
def inoBoundB : List (Pos × Nat) → Nat → Bool
  | [], _ => true
  | e :: rest, b => decide (e.2 < b) && inoBoundB rest b

def containsKey {α β : Type} [DecidableEq α] (l : List (α × β)) (k : α) : Bool :=
  (alookup l k).isSome

/-- No two entries with the same (parent, name) (spec invariant 1). -/
def nodupKeysB : List (Pos × Nat) → Bool
  | [] => true
  | e :: rest => !(containsKey rest e.1) && nodupKeysB rest

/-- Well-formed upper layer: fresh-inode counter above every referenced
inode, and no duplicate directory entries. -/
def wfUpper (u : Upper) : Bool :=
  inoBoundB u.entries u.nextIno && nodupKeysB u.entries

/-! ## Inode Registry resolution (spec section 4.C)

Scan upper first; a whiteout marker in upper short-circuits the lower
lookup and yields `WhitedOut`; otherwise the first lower hit wins. -/

inductive Resolve where
  | upperHit (ino : Nat)
  | lowerHit (content : String)
  | whitedOut
  | notPresent
deriving Repr, DecidableEq

def resolve (st : OvState) (pos : Pos) : Resolve :=
  match alookup st.upper.entries pos with
  | some i =>
    match alookup st.upper.inodes i with
    | some ind => if is_whiteout ⟨ind.mode, ind.rdev⟩ then .whitedOut else .upperHit i
    | none => .notPresent
  | none =>
    match alookup st.lower pos with
    | some c => .lowerHit c
    | none => .notPresent

/-- A position is user-visibly present (not absent, not whited out). -/
def resolvePresent (st : OvState) (pos : Pos) : Bool :=
  match resolve st pos with
  | .upperHit _ => true
  | .lowerHit _ => true
  | .whitedOut => false
  | .notPresent => false

/-- The content reachable through a position in the union. -/
def entryContent (st : OvState) (pos : Pos) : Option String :=
  match resolve st pos with
  | .upperHit i => (alookup st.upper.inodes i).map Inode.content
  | .lowerHit c => some c
  | .whitedOut => none
  | .notPresent => none

/-! ## Layer Accessor (spec section 4.A)

`rawRename` is the host rename primitive acting on the upper layer with
one of the flag words the planner hands it (0, NOREPLACE, EXCHANGE or
WHITEOUT).  flags=0 atomically replaces any destination entry; NOREPLACE
fails with EEXIST on an existing destination; EXCHANGE swaps two
existing entries; WHITEOUT moves the source and leaves a fresh whiteout
node at the vacated source position. -/

def rawRename (u : Upper) (src dst : Pos) (flags : Nat) : Except Nat Upper :=
  match alookup u.entries src with
  | none => .error ENOENT
  | some s =>
    if flags = RENAME_NOREPLACE then
      match alookup u.entries dst with
      | some _ => .error EEXIST
      | none => .ok { u with entries := (dst, s) :: removeKey u.entries src }
    else if flags = RENAME_EXCHANGE then
      match alookup u.entries dst with
      | none => .error ENOENT
      | some d =>
        .ok { u with entries := (src, d) :: (dst, s) :: removeKey (removeKey u.entries src) dst }
    else if flags = RENAME_WHITEOUT then
      .ok { entries := (src, u.nextIno) :: (dst, s) :: removeKey (removeKey u.entries src) dst,
            inodes := (u.nextIno, whiteoutInode) :: u.inodes,
            nextIno := u.nextIno + 1 }
    else
      .ok { u with entries := (dst, s) :: removeKey (removeKey u.entries src) dst }

/-! ## Whiteout Protocol (spec section 4.B) and Copy-Up (4.D)

`create_whiteout` is `TestEnv::create_whiteout`
(tests/test_rename2_comprehensive.rs lines 55-72) lifted to the model:
`mknod(path, S_IFCHR | 0o644, 0)`, which fails with EEXIST when the
path already exists.  `copyUp` materializes a lower-layer hit into the
upper layer with a fresh inode, duplicating the content (spec 4.D). -/

def create_whiteout (u : Upper) (pos : Pos) : Except Nat Upper :=
  match alookup u.entries pos with
  | some _ => .error EEXIST
  | none =>
    .ok { entries := (pos, u.nextIno) :: u.entries,
          inodes := (u.nextIno, whiteoutInode) :: u.inodes,
          nextIno := u.nextIno + 1 }

def copyUp (u : Upper) (pos : Pos) (c : String) : Upper :=
  { entries := (pos, u.nextIno) :: u.entries,
    inodes := (u.nextIno, ⟨Nat.lor S_IFREG 0o644, 0, c⟩) :: u.inodes,
    nextIno := u.nextIno + 1 }

/-! ## Rename2 Planner (spec section 4.E)

`rename2Cases` is the case table dispatched after resolution: `st` is
the state resolution ran against, `st1` the state with the source
already ensured in the upper layer.  The post-rename whiteout policy
applies to the flags=0 cases only, exactly as in the spec: a whiteout
is created at the old source position iff a lower-layer entry exists at
that position; if whiteout creation fails the inconsistency is logged
and success is returned. -/

def postWhiteout (st : OvState) (src : Pos) : OvState :=
  match alookup st.lower src with
  | some _ =>
    match create_whiteout st.upper src with
    | .ok u2 => { st with upper := u2 }
    | .error _ => st
  | none => st

def rename2Cases (st st1 : OvState) (src dst : Pos) (flags : Nat) : Except Nat OvState :=
  if hasFlag flags RENAME_WHITEOUT then
    match rawRename st1.upper src dst RENAME_WHITEOUT with
    | .ok u2 => .ok { st1 with upper := u2 }
    | .error e => .error e
  else if hasFlag flags RENAME_EXCHANGE then
    match resolve st dst with
    | .upperHit _ =>
      match rawRename st1.upper src dst RENAME_EXCHANGE with
      | .ok u2 => .ok { st1 with upper := u2 }
      | .error e => .error e
    | .lowerHit c =>
      match rawRename (copyUp st1.upper dst c) src dst RENAME_EXCHANGE with
      | .ok u2 => .ok { st1 with upper := u2 }
      | .error e => .error e
    | .whitedOut => .error ENOENT
    | .notPresent => .error ENOENT
  else if hasFlag flags RENAME_NOREPLACE then
    match resolve st dst with
    | .upperHit _ => .error EEXIST
    | .lowerHit _ => .error EEXIST
    | .whitedOut =>
      match rawRename st1.upper src dst 0 with
      | .ok u2 => .ok { st1 with upper := u2 }
      | .error e => .error e
    | .notPresent =>
      match rawRename st1.upper src dst RENAME_NOREPLACE with
      | .ok u2 => .ok { st1 with upper := u2 }
      | .error e => .error e
  else
    match rawRename st1.upper src dst 0 with
    | .ok u2 => .ok (postWhiteout { st1 with upper := u2 } src)
    | .error e => .error e

/-- Modelled from the spec: the Rename2 Planner entry point (spec
section 4.E), which is not among the provided sources.  Flag
preconditions first (EXCHANGE with NOREPLACE, EXCHANGE with WHITEOUT,
or any bit outside the three modifier bits fail EINVAL, side-effect
free); then source resolution (ENOENT when absent or whited out); then
the same-path rule (success with no side effects, even when flags are
set); then copy-up of a lower source and the case table. -/
def rename2 (st : OvState) (psrc : Nat) (nsrc : String) (pdst : Nat) (ndst : String)
    (flags : Nat) : Except Nat OvState :=
  if hasFlag flags RENAME_EXCHANGE && hasFlag flags RENAME_NOREPLACE then .error EINVAL
  else if hasFlag flags RENAME_EXCHANGE && hasFlag flags RENAME_WHITEOUT then .error EINVAL
  else if Nat.shiftRight flags 3 != 0 then .error EINVAL
  else
    match resolve st (psrc, nsrc) with
    | .notPresent => .error ENOENT
    | .whitedOut => .error ENOENT
    | .upperHit _ =>
      if psrc = pdst ∧ nsrc = ndst then .ok st
      else rename2Cases st st (psrc, nsrc) (pdst, ndst) flags
    | .lowerHit c =>
      if psrc = pdst ∧ nsrc = ndst then .ok st
      else
        rename2Cases st { st with upper := copyUp st.upper (psrc, nsrc) c }
          (psrc, nsrc) (pdst, ndst) flags

/-! ## Behavior Injection Hook (src/overlayfs/mock_layer.rs)

The mock layer holds a `RenameBehavior` behind a mutex and an inner
`PassthroughFs`.  The inner filesystem is abstracted as a state
transformer `InnerFs`; `Duration` is a plain number of time units;
`Request` a plain number; `OsStr` values are strings, so the
`OsStr::new` conversion in the closure is the identity.  Observable
actions (sleeping, invoking the inner rename2) are recorded in an
effect list so that "without touching the filesystem" is provable. -/

inductive RenameBehavior where
  | Ok
  | Errno (e : Int)
  | DelayOk (d : Nat)
deriving Repr, DecidableEq

inductive Effect where
  | sleep (d : Nat)
  | innerRename2 (req parent : Nat) (name : String) (newParent : Nat)
      (newName : String) (flags : Nat)
deriving Repr, DecidableEq

abbrev InnerFs (St : Type) :=
  Nat → Nat → String → Nat → String → Nat → St → (Except Int Unit × St)

/-- `MockLayer::rename2` (the `Filesystem` trait method, mock_layer.rs
lines 117-141): lock and clone the behavior, then dispatch — `Ok`
forwards to the inner rename2 with the same arguments, `Errno(e)`
returns errno `e`, `DelayOk(dur)` sleeps then forwards. -/
def mockLayerRename2 {St : Type} (behavior : RenameBehavior) (inner : InnerFs St)
    (req parent : Nat) (name : String) (newParent : Nat) (newName : String)
    (flags : Nat) (st : St) : Except Int Unit × St × List Effect :=
  match behavior with
  | .Ok =>
    let r := inner req parent name newParent newName flags st
    (r.1, r.2, [Effect.innerRename2 req parent name newParent newName flags])
  | .Errno e => (Except.error e, st, [])
  | .DelayOk d =>
    let r := inner req parent name newParent newName flags st
    (r.1, r.2, [Effect.sleep d, Effect.innerRename2 req parent name newParent newName flags])

/-- `MockLayer::make_rename2_closure` (mock_layer.rs lines 58-93): the
synchronous override closure; it locks and clones the behavior, then
dispatches exactly like the trait method (with `OsStr::new` on the
string arguments and `block_on` around the inner call). -/
def makeRename2Closure {St : Type} (behavior : RenameBehavior) (inner : InnerFs St) :
    Nat → Nat → String → Nat → String → Nat → St → Except Int Unit × St × List Effect :=
  fun req parent name newParent newName flags st =>
    match behavior with
    | .Ok =>
      let r := inner req parent name newParent newName flags st
      (r.1, r.2, [Effect.innerRename2 req parent name newParent newName flags])
    | .Errno e => (Except.error e, st, [])
    | .DelayOk d =>
      let r := inner req parent name newParent newName flags st
      (r.1, r.2, [Effect.sleep d, Effect.innerRename2 req parent name newParent newName flags])

/-! ## Concrete states used by witnesses and counterexamples -/

def regInode (c : String) : Inode := ⟨Nat.lor S_IFREG 0o644, 0, c⟩

/-- Upper layer holding one regular file "a" under parent 1. -/
def wuA : Upper :=
  { entries := [((1, "a"), 0)], inodes := [(0, regInode "x")], nextIno := 1 }

def wuEmpty : Upper := { entries := [], inodes := [], nextIno := 0 }

/-- One upper file "a", shadowing a lower-layer entry at the same name. -/
def stW1 : OvState := { upper := wuA, lower := [((1, "a"), "lo")] }

/-- `stW1` after renaming a to b with flags 0 (or with WHITEOUT). -/
def stW1' : OvState :=
  { upper := { entries := [((1, "a"), 1), ((1, "b"), 0)],
               inodes := [(1, whiteoutInode), (0, regInode "x")],
               nextIno := 2 },
    lower := [((1, "a"), "lo")] }

/-- Lower-only file at (1, f); upper empty. -/
def stX1 : OvState := { upper := wuEmpty, lower := [((1, "f"), "lo")] }

/-- Upper files "a" and "b" under parent 1. -/
def stW6 : OvState :=
  { upper := { entries := [((1, "a"), 0), ((1, "b"), 1)],
               inodes := [(0, regInode "s"), (1, regInode "d")], nextIno := 2 },
    lower := [] }

/-- Three hard links a, b, c of inode 0 in the upper layer. -/
def stW9 : OvState :=
  { upper := { entries := [((1, "a"), 0), ((1, "b"), 0), ((1, "c"), 0)],
               inodes := [(0, regInode "d")], nextIno := 1 },
    lower := [] }

/-- `stW9` after renaming a to the fresh name z with the WHITEOUT flag:
a whiteout (fresh inode 1) sits at (1, a) and the three links z, b, c
still resolve to inode 0. -/
def stW9wh : OvState :=
  { upper := { entries := [((1, "a"), 1), ((1, "z"), 0), ((1, "b"), 0), ((1, "c"), 0)],
               inodes := [(1, whiteoutInode), (0, regInode "d")], nextIno := 2 },
    lower := [] }

/-- `stW9` after renaming hard link a onto hard link b with flags 0. -/
def stW9cex : OvState :=
  { upper := { entries := [((1, "b"), 0), ((1, "c"), 0)],
               inodes := [(0, regInode "d")], nextIno := 1 },
    lower := [] }

/-- `wuEmpty` after creating a whiteout at (1, g). -/
def wuW7 : Upper :=
  { entries := [((1, "g"), 0)], inodes := [(0, whiteoutInode)], nextIno := 1 }

/-! ## Association-list lemmas -/

theorem alookup_removeKey_self {α β : Type} [DecidableEq α] (l : List (α × β)) (k : α) :
    alookup (removeKey l k) k = none := by
  induction l with
  | nil => rfl
  | cons e rest ih =>
    by_cases he : e.1 = k
    · simp [removeKey, he, ih]
    · simp [removeKey, he, alookup, ih]

theorem alookup_removeKey_ne {α β : Type} [DecidableEq α] (l : List (α × β)) {k k' : α}
    (h : k ≠ k') : alookup (removeKey l k') k = alookup l k := by
  induction l with
  | nil => rfl
  | cons e rest ih =>
    by_cases he : e.1 = k'
    · simp [removeKey, he, alookup, Ne.symm h, ih]
    · simp [removeKey, he, alookup, ih]

theorem alookup_inoBound {l : List (Pos × Nat)} {b : Nat} {k : Pos} {v : Nat}
    (hb : inoBoundB l b = true) (hlk : alookup l k = some v) : v < b := by
  induction l with
  | nil => simp [alookup] at hlk
  | cons e rest ih =>
    rw [inoBoundB, Bool.and_eq_true, decide_eq_true_eq] at hb
    by_cases he : e.1 = k
    · rw [alookup, if_pos he] at hlk
      cases hlk
      exact hb.1
    · rw [alookup, if_neg he] at hlk
      exact ih hb.2 hlk

theorem resolve_upperHit {st : OvState} {pos : Pos} {i : Nat}
    (h : resolve st pos = .upperHit i) :
    alookup st.upper.entries pos = some i ∧
    ∃ ind, alookup st.upper.inodes i = some ind ∧
      is_whiteout ⟨ind.mode, ind.rdev⟩ = false := by
  unfold resolve at h
  split at h
  · rename_i j hj
    split at h
    · rename_i ind hind
      split at h
      · exact absurd h (by simp)
      · rename_i hw
        cases h
        exact ⟨hj, ind, hind, by simpa using hw⟩
    · exact absurd h (by simp)
  · split at h <;> exact absurd h (by simp)

theorem resolve_lowerHit {st : OvState} {pos : Pos} {c : String}
    (h : resolve st pos = .lowerHit c) :
    alookup st.upper.entries pos = none ∧ alookup st.lower pos = some c := by
  unfold resolve at h
  split at h
  · rename_i j hj
    split at h
    · split at h <;> exact absurd h (by simp)
    · exact absurd h (by simp)
  · rename_i hj
    split at h
    · rename_i c2 hc
      cases h
      exact ⟨hj, hc⟩
    · exact absurd h (by simp)

/-! ## Definitional unfoldings of the planner at each concrete flags word -/

theorem rename2_flags0 (st : OvState) (psrc : Nat) (nsrc : String) (pdst : Nat)
    (ndst : String) :
    rename2 st psrc nsrc pdst ndst 0 =
      match resolve st (psrc, nsrc) with
      | .notPresent => .error ENOENT
      | .whitedOut => .error ENOENT
      | .upperHit _ =>
        if psrc = pdst ∧ nsrc = ndst then .ok st
        else rename2Cases st st (psrc, nsrc) (pdst, ndst) 0
      | .lowerHit c =>
        if psrc = pdst ∧ nsrc = ndst then .ok st
        else
          rename2Cases st { st with upper := copyUp st.upper (psrc, nsrc) c }
            (psrc, nsrc) (pdst, ndst) 0 := rfl

theorem rename2_flagsNR (st : OvState) (psrc : Nat) (nsrc : String) (pdst : Nat)
    (ndst : String) :
    rename2 st psrc nsrc pdst ndst RENAME_NOREPLACE =
      match resolve st (psrc, nsrc) with
      | .notPresent => .error ENOENT
      | .whitedOut => .error ENOENT
      | .upperHit _ =>
        if psrc = pdst ∧ nsrc = ndst then .ok st
        else rename2Cases st st (psrc, nsrc) (pdst, ndst) RENAME_NOREPLACE
      | .lowerHit c =>
        if psrc = pdst ∧ nsrc = ndst then .ok st
        else
          rename2Cases st { st with upper := copyUp st.upper (psrc, nsrc) c }
            (psrc, nsrc) (pdst, ndst) RENAME_NOREPLACE := rfl

theorem rename2_flagsEX (st : OvState) (psrc : Nat) (nsrc : String) (pdst : Nat)
    (ndst : String) :
    rename2 st psrc nsrc pdst ndst RENAME_EXCHANGE =
      match resolve st (psrc, nsrc) with
      | .notPresent => .error ENOENT
      | .whitedOut => .error ENOENT
      | .upperHit _ =>
        if psrc = pdst ∧ nsrc = ndst then .ok st
        else rename2Cases st st (psrc, nsrc) (pdst, ndst) RENAME_EXCHANGE
      | .lowerHit c =>
        if psrc = pdst ∧ nsrc = ndst then .ok st
        else
          rename2Cases st { st with upper := copyUp st.upper (psrc, nsrc) c }
            (psrc, nsrc) (pdst, ndst) RENAME_EXCHANGE := rfl

theorem rename2_flagsWH (st : OvState) (psrc : Nat) (nsrc : String) (pdst : Nat)
    (ndst : String) :
    rename2 st psrc nsrc pdst ndst RENAME_WHITEOUT =
      match resolve st (psrc, nsrc) with
      | .notPresent => .error ENOENT
      | .whitedOut => .error ENOENT
      | .upperHit _ =>
        if psrc = pdst ∧ nsrc = ndst then .ok st
        else rename2Cases st st (psrc, nsrc) (pdst, ndst) RENAME_WHITEOUT
      | .lowerHit c =>
        if psrc = pdst ∧ nsrc = ndst then .ok st
        else
          rename2Cases st { st with upper := copyUp st.upper (psrc, nsrc) c }
            (psrc, nsrc) (pdst, ndst) RENAME_WHITEOUT := rfl

theorem rename2Cases_flags0 (st st1 : OvState) (src dst : Pos) :
    rename2Cases st st1 src dst 0 =
      match rawRename st1.upper src dst 0 with
      | .ok u2 => .ok (postWhiteout { st1 with upper := u2 } src)
      | .error e => .error e := rfl

theorem rename2Cases_flagsNR (st st1 : OvState) (src dst : Pos) :
    rename2Cases st st1 src dst RENAME_NOREPLACE =
      match resolve st dst with
      | .upperHit _ => .error EEXIST
      | .lowerHit _ => .error EEXIST
      | .whitedOut =>
        match rawRename st1.upper src dst 0 with
        | .ok u2 => .ok { st1 with upper := u2 }
        | .error e => .error e
      | .notPresent =>
        match rawRename st1.upper src dst RENAME_NOREPLACE with
        | .ok u2 => .ok { st1 with upper := u2 }
        | .error e => .error e := rfl

theorem rename2Cases_flagsWH (st st1 : OvState) (src dst : Pos) :
    rename2Cases st st1 src dst RENAME_WHITEOUT =
      match rawRename st1.upper src dst RENAME_WHITEOUT with
      | .ok u2 => .ok { st1 with upper := u2 }
      | .error e => .error e := rfl

theorem rawRename_flags0 (u : Upper) (src dst : Pos) :
    rawRename u src dst 0 =
      match alookup u.entries src with
      | none => .error ENOENT
      | some s =>
        .ok { u with entries := (dst, s) :: removeKey (removeKey u.entries src) dst } := rfl

theorem rawRename_flagsWH (u : Upper) (src dst : Pos) :
    rawRename u src dst RENAME_WHITEOUT =
      match alookup u.entries src with
      | none => .error ENOENT
      | some s =>
        .ok { entries := (src, u.nextIno) :: (dst, s) ::
                removeKey (removeKey u.entries src) dst,
              inodes := (u.nextIno, whiteoutInode) :: u.inodes,
              nextIno := u.nextIno + 1 } := rfl

theorem rawRename_flagsEX (u : Upper) (src dst : Pos) :
    rawRename u src dst RENAME_EXCHANGE =
      match alookup u.entries src with
      | none => .error ENOENT
      | some s =>
        match alookup u.entries dst with
        | none => .error ENOENT
        | some d =>
          .ok { u with entries := (src, d) :: (dst, s) ::
                  removeKey (removeKey u.entries src) dst } := rfl

theorem rawRename_flagsNR (u : Upper) (src dst : Pos) :
    rawRename u src dst RENAME_NOREPLACE =
      match alookup u.entries src with
      | none => .error ENOENT
      | some s =>
        match alookup u.entries dst with
        | some _ => .error EEXIST
        | none => .ok { u with entries := (dst, s) :: removeKey u.entries src } := rfl

/-! ## Claim theorems -/

/-- Claim C2: `MockLayer::rename2` dispatches on the configured behavior
mode: with `Ok` it forwards the request verbatim (same req, parent,
name, new_parent, new_name, flags) to the inner filesystem's rename2
and returns that result; with `Errno e` it returns errno `e`; with
`DelayOk d` it sleeps for `d` and then forwards the request verbatim to
the inner rename2. -/
theorem mockLayer_rename2_dispatch {St : Type} (inner : InnerFs St) (req p : Nat)
    (n : String) (np : Nat) (nn : String) (f : Nat) (st : St) (e : Int) (d : Nat) :
    mockLayerRename2 .Ok inner req p n np nn f st =
      ((inner req p n np nn f st).1, (inner req p n np nn f st).2,
        [Effect.innerRename2 req p n np nn f]) ∧
    mockLayerRename2 (.Errno e) inner req p n np nn f st = (Except.error e, st, []) ∧
    mockLayerRename2 (.DelayOk d) inner req p n np nn f st =
      ((inner req p n np nn f st).1, (inner req p n np nn f st).2,
        [Effect.sleep d, Effect.innerRename2 req p n np nn f]) :=
  ⟨rfl, rfl, rfl⟩

/-- Claim C3: in mode `Errno e`, `MockLayer::rename2` returns errno `e`
for every input — for every inner filesystem, every argument tuple
(including flag words the planner rejects with EINVAL, such as EXCHANGE
combined with NOREPLACE, and names that do not exist) — with an empty
effect list (the inner filesystem is never invoked, no sleep happens)
and the filesystem state returned unchanged. -/
theorem mockLayer_errno_bypasses_inner {St : Type} (e : Int) (inner : InnerFs St)
    (req p : Nat) (n : String) (np : Nat) (nn : String) (f : Nat) (st : St) :
    mockLayerRename2 (.Errno e) inner req p n np nn f st = (Except.error e, st, []) ∧
    mockLayerRename2 (.Errno e) inner req p n np nn
        (Nat.lor RENAME_EXCHANGE RENAME_NOREPLACE) st = (Except.error e, st, []) :=
  ⟨rfl, rfl⟩

/-- Claim C10: the synchronous closure built by
`MockLayer::make_rename2_closure` and the asynchronous
`Filesystem::rename2` method compute the same result for every behavior
mode, inner filesystem, argument tuple and state: same returned value,
same final state and the same observable actions (inner invocation with
identical arguments, sleeps, or neither). -/
theorem closure_method_agree {St : Type} (b : RenameBehavior) (inner : InnerFs St)
    (req p : Nat) (n : String) (np : Nat) (nn : String) (f : Nat) (st : St) :
    makeRename2Closure b inner req p n np nn f st =
      mockLayerRename2 b inner req p n np nn f st := by
  cases b <;> rfl

/-- Claim C4: rename2 called with EXCHANGE|NOREPLACE fails with EINVAL,
and rename2 called with EXCHANGE|WHITEOUT fails with EINVAL, for every
state and every pair of positions; the flag precondition is checked
before resolution or any side effect, so the error depends on nothing
but the flags word and the state is untouched (an error result carries
no new state). -/
theorem rename2_invalid_flag_combos (st : OvState) (psrc : Nat) (nsrc : String)
    (pdst : Nat) (ndst : String) :
    rename2 st psrc nsrc pdst ndst (Nat.lor RENAME_EXCHANGE RENAME_NOREPLACE) =
      Except.error EINVAL ∧
    rename2 st psrc nsrc pdst ndst (Nat.lor RENAME_EXCHANGE RENAME_WHITEOUT) =
      Except.error EINVAL :=
  ⟨rfl, rfl⟩

/-- Claim C7: `is_whiteout` holds exactly of metadata whose file type is
character-special and whose device number is zero; and after a
successful `create_whiteout` (a mknod of a character-special node with
mode `S_IFCHR | 0o644` and device 0) the metadata found at that
position satisfies `is_whiteout` — the create/recognize round trip. -/
theorem whiteout_recognize_roundtrip :
    (∀ m : Metadata, is_whiteout m = true ↔ (Nat.land m.mode S_IFMT = S_IFCHR ∧ m.rdev = 0)) ∧
    (∀ (u : Upper) (pos : Pos) (u2 : Upper), create_whiteout u pos = Except.ok u2 →
      ∃ m, Upper.metadataAt u2 pos = some m ∧ is_whiteout m = true) := by
  constructor
  · intro m
    simp [is_whiteout]
  · intro u pos u2 h
    unfold create_whiteout at h
    split at h
    · exact absurd h (by simp)
    · cases h
      refine ⟨⟨Nat.lor S_IFCHR 0o644, 0⟩, ?_, by decide⟩
      simp [Upper.metadataAt, Upper.get, alookup, whiteoutInode]

/-- Witness for C7 at a concrete state: creating a whiteout at (1, g)
in an empty upper layer yields a position recognized by `is_whiteout`. -/
theorem whiteout_recognize_roundtrip_w :
    ∃ m, Upper.metadataAt wuW7 (1, "g") = some m ∧ is_whiteout m = true :=
  whiteout_recognize_roundtrip.2 wuEmpty (1, "g") wuW7 (by rfl)

/-- Counterexample to C1 as stated: the same-path rename of a file that
exists only in the lower layer succeeds with flags 0 (the spec's
same-path rule returns success with no side effects), a lower-layer
entry exists at the old source position, and yet no whiteout is created
there. -/
theorem rename2_flags0_whiteout_iff_lower_cex :
    rename2 stX1 1 "f" 1 "f" 0 = Except.ok stX1 ∧
    (alookup stX1.lower (1, "f")).isSome = true ∧
    upperWhiteout stX1.upper (1, "f") = false :=
  ⟨rfl, rfl, rfl⟩

/-- Counterexample to C5 as stated: a same-path rename2 with the
WHITEOUT flag succeeds (same-path rule) but leaves no whiteout marker
at the old source position — the position still holds the regular file. -/
theorem rename2_whiteout_flag_cex :
    rename2 stW1 1 "a" 1 "a" RENAME_WHITEOUT = Except.ok stW1 ∧
    upperWhiteout stW1.upper (1, "a") = false :=
  ⟨rfl, rfl⟩

/-- Counterexample to C6 as stated: a same-path rename2 with NOREPLACE
whose destination is present succeeds (same-path rule) instead of
failing with EEXIST. -/
theorem rename2_noreplace_cex :
    resolvePresent stW1 (1, "a") = true ∧
    rename2 stW1 1 "a" 1 "a" RENAME_NOREPLACE = Except.ok stW1 :=
  ⟨rfl, rfl⟩

/-- Counterexample to C9 as stated: renaming hard link a of a
three-link inode onto its sibling hard link b succeeds with flags 0 and
drops the upper link count from 3 to 2 (the spec's case 2 atomically
replaces the destination entry; its same-path rule compares positions,
not inodes). -/
theorem rename2_hardlink_nlink_cex :
    nlink stW9.upper 0 = 3 ∧
    rename2 stW9 1 "a" 1 "b" 0 = Except.ok stW9cex ∧
    nlink stW9cex.upper 0 = 2 :=
  ⟨rfl, rfl, rfl⟩

/-- Claim C8: for every existing entry and every valid flags word (0,
NOREPLACE, EXCHANGE or WHITEOUT), rename2 with identical source and
destination position returns success with the state literally unchanged
— the entry still exists with unchanged content and no whiteout is
created. -/
theorem rename2_same_path_noop (st : OvState) (p : Nat) (n : String) (flags : Nat)
    (hf : flags = 0 ∨ flags = RENAME_NOREPLACE ∨ flags = RENAME_EXCHANGE ∨
      flags = RENAME_WHITEOUT)
    (hp : resolvePresent st (p, n) = true) :
    rename2 st p n p n flags = Except.ok st := by
  rcases hf with rfl | rfl | rfl | rfl <;>
    cases hres : resolve st (p, n) <;>
      simp_all [resolvePresent, rename2_flags0, rename2_flagsNR, rename2_flagsEX,
        rename2_flagsWH]

/-- Witness for C8: the same-path EXCHANGE rename of the existing upper
file (1, a) is a successful no-op. -/
theorem rename2_same_path_noop_w : rename2 stW1 1 "a" 1 "a" RENAME_EXCHANGE = Except.ok stW1 :=
  rename2_same_path_noop stW1 1 "a" RENAME_EXCHANGE (Or.inr (Or.inr (Or.inl rfl)))
    (by decide)

/-- Claim C6 (amended): for every rename2 with NOREPLACE whose source
entry is present, whose destination position differs from the source
position, and whose destination entry is present (a regular,
user-visible entry, not a whiteout), the operation fails with EEXIST;
the error is returned by the planner's case 5 before any raw rename or
copy-up reaches the layers, so both entries are left unchanged. -/
theorem rename2_noreplace_eexist (st : OvState) (psrc : Nat) (nsrc : String)
    (pdst : Nat) (ndst : String)
    (hsrc : resolvePresent st (psrc, nsrc) = true)
    (hdst : resolvePresent st (pdst, ndst) = true)
    (hne : ¬(psrc = pdst ∧ nsrc = ndst)) :
    rename2 st psrc nsrc pdst ndst RENAME_NOREPLACE = Except.error EEXIST := by
  have main : rename2Cases st st (psrc, nsrc) (pdst, ndst) RENAME_NOREPLACE =
      Except.error EEXIST ∧
      ∀ st1, rename2Cases st st1 (psrc, nsrc) (pdst, ndst) RENAME_NOREPLACE =
        Except.error EEXIST := by
    cases hdres : resolve st (pdst, ndst) with
    | upperHit j => exact ⟨by simp [rename2Cases_flagsNR, hdres], fun st1 => by
        simp [rename2Cases_flagsNR, hdres]⟩
    | lowerHit c => exact ⟨by simp [rename2Cases_flagsNR, hdres], fun st1 => by
        simp [rename2Cases_flagsNR, hdres]⟩
    | whitedOut => simp [resolvePresent, hdres] at hdst
    | notPresent => simp [resolvePresent, hdres] at hdst
  cases hres : resolve st (psrc, nsrc) with
  | upperHit i => simp only [rename2_flagsNR, hres, if_neg hne]; exact main.1
  | lowerHit c => simp only [rename2_flagsNR, hres, if_neg hne]; exact main.2 _
  | whitedOut => simp [resolvePresent, hres] at hsrc
  | notPresent => simp [resolvePresent, hres] at hsrc

/-- Witness for C6: with distinct upper files (1, a) and (1, b),
NOREPLACE rename of a onto b fails with EEXIST. -/
theorem rename2_noreplace_eexist_w :
    rename2 stW6 1 "a" 1 "b" RENAME_NOREPLACE = Except.error EEXIST :=
  rename2_noreplace_eexist stW6 1 "a" 1 "b" (by decide) (by decide) (by decide)

theorem is_whiteout_marker : is_whiteout ⟨Nat.lor S_IFCHR 0o644, 0⟩ = true := by decide

theorem is_whiteout_regMode : is_whiteout ⟨Nat.lor S_IFREG 0o644, 0⟩ = false := by decide

/-- Claim C1 (amended): for every successful rename2 with flags 0 whose
source and destination positions differ, a whiteout is created at the
old source position if and only if a lower-layer entry exists at that
position — regardless of the upper-layer link count of the source
inode (the state, hence the link count, is universally quantified). -/
theorem rename2_flags0_whiteout_iff_lower
    (st : OvState) (psrc : Nat) (nsrc : String) (pdst : Nat) (ndst : String) (st' : OvState)
    (hne : ¬(psrc = pdst ∧ nsrc = ndst))
    (h : rename2 st psrc nsrc pdst ndst 0 = Except.ok st') :
    (upperWhiteout st'.upper (psrc, nsrc) = true ↔
      (alookup st.lower (psrc, nsrc)).isSome = true) := by
  have hdsne : ((pdst, ndst) : Pos) ≠ (psrc, nsrc) := fun hq => by
    rw [Prod.mk.injEq] at hq
    exact hne ⟨hq.1.symm, hq.2.symm⟩
  have hsdne : ((psrc, nsrc) : Pos) ≠ (pdst, ndst) := fun hq => hdsne hq.symm
  cases hres : resolve st (psrc, nsrc) with
  | notPresent => simp [rename2_flags0, hres] at h
  | whitedOut => simp [rename2_flags0, hres] at h
  | upperHit i =>
    obtain ⟨hlk, ind, hind, hwf⟩ := resolve_upperHit hres
    simp only [rename2_flags0, hres, if_neg hne, rename2Cases_flags0, rawRename_flags0,
      hlk, Except.ok.injEq] at h
    subst h
    have hE2src : alookup (((pdst, ndst), i) ::
        removeKey (removeKey st.upper.entries (psrc, nsrc)) (pdst, ndst)) (psrc, nsrc) =
        none := by
      rw [alookup, if_neg hdsne, alookup_removeKey_ne _ hsdne, alookup_removeKey_self]
    cases hlow : alookup st.lower (psrc, nsrc) with
    | none =>
      simp only [postWhiteout, hlow]
      simp [upperWhiteout, Upper.metadataAt, Upper.get, hE2src]
    | some c =>
      simp only [postWhiteout, hlow, create_whiteout, hE2src]
      simp [upperWhiteout, Upper.metadataAt, Upper.get, alookup, whiteoutInode,
        is_whiteout_marker]
  | lowerHit c =>
    obtain ⟨hup, hlo⟩ := resolve_lowerHit hres
    simp only [rename2_flags0, hres, if_neg hne, rename2Cases_flags0, copyUp,
      rawRename_flags0, alookup, removeKey, if_true, eq_self_iff_true,
      Except.ok.injEq] at h
    subst h
    have hE2src : alookup (((pdst, ndst), st.upper.nextIno) ::
        removeKey (removeKey st.upper.entries (psrc, nsrc)) (pdst, ndst)) (psrc, nsrc) =
        none := by
      rw [alookup, if_neg hdsne, alookup_removeKey_ne _ hsdne, alookup_removeKey_self]
    simp only [postWhiteout, hlo, create_whiteout, hE2src]
    simp [upperWhiteout, Upper.metadataAt, Upper.get, alookup, whiteoutInode,
      is_whiteout_marker]

/-- Witness for C1: renaming the copied-up file (1, a) — which shadows
a lower-layer entry — to (1, b) with flags 0 leaves a whiteout at
(1, a), matching the lower-layer occupancy. -/
theorem rename2_flags0_whiteout_iff_lower_w :
    upperWhiteout stW1'.upper (1, "a") = true ↔
      (alookup stW1.lower (1, "a")).isSome = true :=
  rename2_flags0_whiteout_iff_lower stW1 1 "a" 1 "b" stW1' (by decide) (by rfl)

/-- Claim C5 (amended): for every successful rename2 with the WHITEOUT
flag whose source and destination positions differ, a whiteout marker
(character-special, device 0) sits at the old source position and the
destination holds the moved entry with its original content; the state
is universally quantified, so this holds whether or not a lower-layer
entry exists at the source position. -/
theorem rename2_whiteout_flag_spec
    (st : OvState) (psrc : Nat) (nsrc : String) (pdst : Nat) (ndst : String) (st' : OvState)
    (hwf : wfUpper st.upper = true)
    (hne : ¬(psrc = pdst ∧ nsrc = ndst))
    (h : rename2 st psrc nsrc pdst ndst RENAME_WHITEOUT = Except.ok st') :
    upperWhiteout st'.upper (psrc, nsrc) = true ∧
    ∃ c, entryContent st (psrc, nsrc) = some c ∧ entryContent st' (pdst, ndst) = some c := by
  rw [wfUpper, Bool.and_eq_true] at hwf
  have hdsne : ((pdst, ndst) : Pos) ≠ (psrc, nsrc) := fun hq => by
    rw [Prod.mk.injEq] at hq
    exact hne ⟨hq.1.symm, hq.2.symm⟩
  have hsdne : ((psrc, nsrc) : Pos) ≠ (pdst, ndst) := fun hq => hdsne hq.symm
  cases hres : resolve st (psrc, nsrc) with
  | notPresent => simp [rename2_flagsWH, hres] at h
  | whitedOut => simp [rename2_flagsWH, hres] at h
  | upperHit i =>
    obtain ⟨hlk, ind, hind, hiw⟩ := resolve_upperHit hres
    have hibound : i < st.upper.nextIno := alookup_inoBound hwf.1 hlk
    have hMne : st.upper.nextIno ≠ i := fun hq => absurd (hq ▸ hibound) (lt_irrefl _)
    simp only [rename2_flagsWH, hres, if_neg hne, rename2Cases_flagsWH, rawRename_flagsWH,
      hlk, Except.ok.injEq] at h
    subst h
    refine ⟨?_, ind.content, ?_, ?_⟩
    · simp [upperWhiteout, Upper.metadataAt, Upper.get, alookup, whiteoutInode,
        is_whiteout_marker]
    · simp [entryContent, hres, hind]
    · simp [entryContent, resolve, alookup, hsdne, hMne, hind, hiw]
  | lowerHit c =>
    obtain ⟨hup, hlo⟩ := resolve_lowerHit hres
    simp only [rename2_flagsWH, hres, if_neg hne, rename2Cases_flagsWH, copyUp,
      rawRename_flagsWH, alookup, removeKey, if_true, eq_self_iff_true,
      Except.ok.injEq] at h
    subst h
    have hMne : st.upper.nextIno + 1 ≠ st.upper.nextIno := Nat.succ_ne_self _
    refine ⟨?_, c, ?_, ?_⟩
    · simp [upperWhiteout, Upper.metadataAt, Upper.get, alookup, whiteoutInode,
        is_whiteout_marker]
    · simp [entryContent, hres]
    · simp [entryContent, resolve, alookup, hsdne, hMne, is_whiteout_regMode]

/-- Witness for C5: renaming (1, a) to (1, b) with the WHITEOUT flag in
`stW1` leaves a whiteout at (1, a) and the content x at (1, b). -/
theorem rename2_whiteout_flag_spec_w :
    upperWhiteout stW1'.upper (1, "a") = true ∧
    ∃ c, entryContent stW1 (1, "a") = some c ∧ entryContent stW1' (1, "b") = some c :=
  rename2_whiteout_flag_spec stW1 1 "a" 1 "b" stW1' (by decide) (by decide) (by rfl)

theorem containsKey_false_removeKey {α β : Type} [DecidableEq α] {l : List (α × β)}
    {k : α} (h : containsKey l k = false) : removeKey l k = l := by
  induction l with
  | nil => rfl
  | cons e rest ih =>
    by_cases he : e.1 = k
    · simp [containsKey, alookup, he] at h
    · simp only [containsKey, alookup, if_neg he] at h
      simp [removeKey, he, ih h]

theorem countIno_removeKey_lookup {l : List (Pos × Nat)} {k : Pos} {s : Nat}
    (hnd : nodupKeysB l = true) (hlk : alookup l k = some s) :
    countIno (removeKey l k) s + 1 = countIno l s := by
  induction l with
  | nil => simp [alookup] at hlk
  | cons e rest ih =>
    rw [nodupKeysB, Bool.and_eq_true] at hnd
    have hc : containsKey rest e.1 = false := by
      have h1 := hnd.1
      rwa [Bool.not_eq_true'] at h1
    by_cases he : e.1 = k
    · rw [alookup, if_pos he] at hlk
      obtain rfl : e.2 = s := Option.some.inj hlk
      have hrk : removeKey rest k = rest := containsKey_false_removeKey (he ▸ hc)
      simp [removeKey, he, hrk, countIno]
      omega
    · rw [alookup, if_neg he] at hlk
      have h2 := ih hnd.2 hlk
      simp only [removeKey, if_neg he, countIno]
      omega

theorem countIno_removeKey_other {l : List (Pos × Nat)} {k : Pos} {s : Nat}
    (hnd : nodupKeysB l = true) (hlk : alookup l k ≠ some s) :
    countIno (removeKey l k) s = countIno l s := by
  induction l with
  | nil => rfl
  | cons e rest ih =>
    rw [nodupKeysB, Bool.and_eq_true] at hnd
    have hc : containsKey rest e.1 = false := by
      have h1 := hnd.1
      rwa [Bool.not_eq_true'] at h1
    by_cases he : e.1 = k
    · rw [alookup, if_pos he] at hlk
      have hv : e.2 ≠ s := fun hq => hlk (by rw [hq])
      have hrk : removeKey rest k = rest := containsKey_false_removeKey (he ▸ hc)
      simp only [removeKey, if_pos he, hrk, countIno, if_neg hv]
      omega
    · rw [alookup, if_neg he] at hlk
      have h2 := ih hnd.2 hlk
      simp only [removeKey, if_neg he, countIno, h2]

theorem nodupKeysB_removeKey {l : List (Pos × Nat)} (k : Pos)
    (h : nodupKeysB l = true) : nodupKeysB (removeKey l k) = true := by
  induction l with
  | nil => rfl
  | cons e rest ih =>
    rw [nodupKeysB, Bool.and_eq_true] at h
    by_cases he : e.1 = k
    · simp only [removeKey, if_pos he]
      exact ih h.2
    · simp only [removeKey, if_neg he, nodupKeysB, Bool.and_eq_true]
      refine ⟨?_, ih h.2⟩
      have hck : containsKey (removeKey rest k) e.1 = containsKey rest e.1 := by
        unfold containsKey
        rw [alookup_removeKey_ne _ he]
      rw [hck]
      exact h.1

/-- Claim C9 (amended): a successful rename2 — with any flags word the
planner accepts — of one name of a multi-link upper inode, whose
destination position is not another name of that same inode, changes
only the directory entries at the source and destination positions:
the upper link count of the inode is unchanged, the destination name
now resolves to the same inode, every other directory entry is
untouched, and the inode's content is unchanged. -/
theorem rename2_hardlink_frame
    (st : OvState) (psrc : Nat) (nsrc : String) (pdst : Nat) (ndst : String)
    (flags : Nat) (st' : OvState) (s : Nat)
    (hwf : wfUpper st.upper = true)
    (hres : resolve st (psrc, nsrc) = .upperHit s)
    (hmulti : 1 < nlink st.upper s)
    (hdst : alookup st.upper.entries (pdst, ndst) ≠ some s)
    (h : rename2 st psrc nsrc pdst ndst flags = Except.ok st') :
    nlink st'.upper s = nlink st.upper s ∧
    alookup st'.upper.entries (pdst, ndst) = some s ∧
    (∀ pos : Pos, pos ≠ (psrc, nsrc) → pos ≠ (pdst, ndst) →
      alookup st'.upper.entries pos = alookup st.upper.entries pos) ∧
    (alookup st'.upper.inodes s).map Inode.content =
      (alookup st.upper.inodes s).map Inode.content := by
  rw [wfUpper, Bool.and_eq_true] at hwf
  obtain ⟨hlk, ind, hind, hiw⟩ := resolve_upperHit hres
  have hsbound : s < st.upper.nextIno := alookup_inoBound hwf.1 hlk
  have hsM : st.upper.nextIno ≠ s := fun hq => absurd (hq ▸ hsbound) (lt_irrefl _)
  have hnd1 : nodupKeysB (removeKey st.upper.entries (psrc, nsrc)) = true :=
    nodupKeysB_removeKey _ hwf.2
  have hcnt1 : countIno (removeKey st.upper.entries (psrc, nsrc)) s + 1 =
      countIno st.upper.entries s :=
    countIno_removeKey_lookup hwf.2 hlk
  unfold rename2 at h
  split at h
  · exact absurd h (by simp)
  split at h
  · exact absurd h (by simp)
  split at h
  · exact absurd h (by simp)
  simp only [hres] at h
  by_cases hsame : psrc = pdst ∧ nsrc = ndst
  · obtain ⟨rfl, rfl⟩ := hsame
    exact absurd hlk hdst
  rw [if_neg hsame] at h
  have hdsne : ((pdst, ndst) : Pos) ≠ (psrc, nsrc) := fun hq => by
    rw [Prod.mk.injEq] at hq
    exact hsame ⟨hq.1.symm, hq.2.symm⟩
  have hsdne : ((psrc, nsrc) : Pos) ≠ (pdst, ndst) := fun hq => hdsne hq.symm
  have hlkdst : alookup (removeKey st.upper.entries (psrc, nsrc)) (pdst, ndst) ≠ some s := by
    rw [alookup_removeKey_ne _ hdsne]
    exact hdst
  have hcnt2 : countIno (removeKey (removeKey st.upper.entries (psrc, nsrc)) (pdst, ndst)) s =
      countIno (removeKey st.upper.entries (psrc, nsrc)) s :=
    countIno_removeKey_other hnd1 hlkdst
  unfold rename2Cases at h
  split at h
  · -- WHITEOUT flag set: cases 9-11 of the table
    simp only [rawRename_flagsWH, hlk, Except.ok.injEq] at h
    subst h
    refine ⟨?_, ?_, ?_, ?_⟩
    · simp only [nlink, countIno, hcnt2]
      simp only [show ((((pdst, ndst), s) : Pos × Nat).2 = s) = True by simp, if_true,
        show ((((psrc, nsrc), st.upper.nextIno) : Pos × Nat).2 = s) = False by
          simp [hsM], if_false]
      omega
    · simp [alookup, hsdne]
    · intro pos hps hpd
      have hps' : ¬(((psrc, nsrc) : Pos) = pos) := fun hq => hps hq.symm
      have hpd' : ¬(((pdst, ndst) : Pos) = pos) := fun hq => hpd hq.symm
      simp only [alookup, if_neg hps', if_neg hpd']
      rw [alookup_removeKey_ne _ hpd, alookup_removeKey_ne _ hps]
    · simp [alookup, hsM]
  split at h
  · -- EXCHANGE: cases 7 and 8 of the table
    cases hdres : resolve st (pdst, ndst) with
    | upperHit d =>
      obtain ⟨hlkd, _⟩ := resolve_upperHit hdres
      have hds : d ≠ s := fun hq => hdst (hq ▸ hlkd)
      simp only [hdres, rawRename_flagsEX, hlk, hlkd, Except.ok.injEq] at h
      subst h
      refine ⟨?_, ?_, ?_, rfl⟩
      · simp only [nlink, countIno, hcnt2]
        simp only [show ((((pdst, ndst), s) : Pos × Nat).2 = s) = True by simp, if_true,
          show ((((psrc, nsrc), d) : Pos × Nat).2 = s) = False by simp [hds], if_false]
        omega
      · simp [alookup, hsdne]
      · intro pos hps hpd
        have hps' : ¬(((psrc, nsrc) : Pos) = pos) := fun hq => hps hq.symm
        have hpd' : ¬(((pdst, ndst) : Pos) = pos) := fun hq => hpd hq.symm
        simp only [alookup, if_neg hps', if_neg hpd']
        rw [alookup_removeKey_ne _ hpd, alookup_removeKey_ne _ hps]
    | lowerHit c =>
      have hraw : rawRename (copyUp st.upper (pdst, ndst) c) (psrc, nsrc) (pdst, ndst)
          RENAME_EXCHANGE =
          Except.ok { entries := ((psrc, nsrc), st.upper.nextIno) :: ((pdst, ndst), s) ::
                        removeKey (removeKey st.upper.entries (psrc, nsrc)) (pdst, ndst),
                      inodes := (st.upper.nextIno, ⟨Nat.lor S_IFREG 0o644, 0, c⟩) ::
                        st.upper.inodes,
                      nextIno := st.upper.nextIno + 1 } := by
        simp [rawRename_flagsEX, copyUp, alookup, removeKey, hdsne, hlk]
      simp only [hdres, hraw, Except.ok.injEq] at h
      subst h
      refine ⟨?_, ?_, ?_, ?_⟩
      · simp only [nlink, countIno, hcnt2]
        simp only [show ((((pdst, ndst), s) : Pos × Nat).2 = s) = True by simp, if_true,
          show ((((psrc, nsrc), st.upper.nextIno) : Pos × Nat).2 = s) = False by
            simp [hsM], if_false]
        omega
      · simp [alookup, hsdne]
      · intro pos hps hpd
        have hps' : ¬(((psrc, nsrc) : Pos) = pos) := fun hq => hps hq.symm
        have hpd' : ¬(((pdst, ndst) : Pos) = pos) := fun hq => hpd hq.symm
        simp only [alookup, if_neg hps', if_neg hpd']
        rw [alookup_removeKey_ne _ hpd, alookup_removeKey_ne _ hps]
      · simp [alookup, hsM]
    | whitedOut => simp [hdres] at h
    | notPresent => simp [hdres] at h
  split at h
  · -- NOREPLACE: cases 4-6 of the table
    cases hdres : resolve st (pdst, ndst) with
    | upperHit d => simp [hdres] at h
    | lowerHit c => simp [hdres] at h
    | whitedOut =>
      simp only [hdres, rawRename_flags0, hlk, Except.ok.injEq] at h
      subst h
      refine ⟨?_, ?_, ?_, rfl⟩
      · simp only [nlink, countIno, hcnt2]
        simp only [show ((((pdst, ndst), s) : Pos × Nat).2 = s) = True by simp, if_true]
        omega
      · simp [alookup]
      · intro pos hps hpd
        have hpd' : ¬(((pdst, ndst) : Pos) = pos) := fun hq => hpd hq.symm
        simp only [alookup, if_neg hpd']
        rw [alookup_removeKey_ne _ hpd, alookup_removeKey_ne _ hps]
    | notPresent =>
      cases halkd : alookup st.upper.entries (pdst, ndst) with
      | some j => simp [hdres, rawRename_flagsNR, hlk, halkd] at h
      | none =>
        simp only [hdres, rawRename_flagsNR, hlk, halkd, Except.ok.injEq] at h
        subst h
        refine ⟨?_, ?_, ?_, rfl⟩
        · simp only [nlink, countIno]
          simp only [show ((((pdst, ndst), s) : Pos × Nat).2 = s) = True by simp, if_true]
          omega
        · simp [alookup]
        · intro pos hps hpd
          have hpd' : ¬(((pdst, ndst) : Pos) = pos) := fun hq => hpd hq.symm
          simp only [alookup, if_neg hpd']
          rw [alookup_removeKey_ne _ hps]
  -- flags = 0: cases 1-3 of the table with the post-rename whiteout policy
  simp only [rawRename_flags0, hlk, Except.ok.injEq] at h
  subst h
  cases hlow : alookup st.lower (psrc, nsrc) with
  | none =>
    simp only [postWhiteout, hlow]
    refine ⟨?_, ?_, ?_, trivial⟩
    · simp only [nlink, countIno, hcnt2]
      simp only [show ((((pdst, ndst), s) : Pos × Nat).2 = s) = True by simp, if_true]
      omega
    · simp [alookup]
    · intro pos hps hpd
      have hpd' : ¬(((pdst, ndst) : Pos) = pos) := fun hq => hpd hq.symm
      simp only [alookup, if_neg hpd']
      rw [alookup_removeKey_ne _ hpd, alookup_removeKey_ne _ hps]
  | some c =>
    have hE2src : alookup (((pdst, ndst), s) ::
        removeKey (removeKey st.upper.entries (psrc, nsrc)) (pdst, ndst)) (psrc, nsrc) =
        none := by
      rw [alookup, if_neg hdsne, alookup_removeKey_ne _ hsdne, alookup_removeKey_self]
    simp only [postWhiteout, hlow, create_whiteout, hE2src]
    refine ⟨?_, ?_, ?_, ?_⟩
    · simp only [nlink, countIno, hcnt2]
      simp only [show ((((pdst, ndst), s) : Pos × Nat).2 = s) = True by simp, if_true,
        show ((((psrc, nsrc), st.upper.nextIno) : Pos × Nat).2 = s) = False by
          simp [hsM], if_false]
      omega
    · simp [alookup, hsdne]
    · intro pos hps hpd
      have hps' : ¬(((psrc, nsrc) : Pos) = pos) := fun hq => hps hq.symm
      have hpd' : ¬(((pdst, ndst) : Pos) = pos) := fun hq => hpd hq.symm
      simp only [alookup, if_neg hps', if_neg hpd']
      rw [alookup_removeKey_ne _ hpd, alookup_removeKey_ne _ hps]
    · simp [alookup, hsM]

/-- Witness for C9: renaming hard link (1, a) of the three-link inode 0
to the fresh name (1, z) with the WHITEOUT flag keeps the link count at
3, maps (1, z) to inode 0, leaves (1, b) and (1, c) untouched and
preserves the content — the frame property with a non-zero flags word. -/
theorem rename2_hardlink_frame_w :
    nlink stW9wh.upper 0 = nlink stW9.upper 0 ∧
    alookup stW9wh.upper.entries (1, "z") = some 0 ∧
    (∀ pos : Pos, pos ≠ (1, "a") → pos ≠ (1, "z") →
      alookup stW9wh.upper.entries pos = alookup stW9.upper.entries pos) ∧
    (alookup stW9wh.upper.inodes 0).map Inode.content =
      (alookup stW9.upper.inodes 0).map Inode.content :=
  rename2_hardlink_frame stW9 1 "a" 1 "z" RENAME_WHITEOUT stW9wh 0 (by decide) (by decide)
    (by decide) (by decide) (by rfl)

end Ovfs
